import Mathlib

/-!
Shallow embedding of `scripts/scrape.py` (the fatalities-in-gaza scraper).

The script is a single pipeline:
  `find_latest_pdf_url` (listing-page scan + filename guessing + ReliefWeb
  fallback) → `extract_deaths` (pdfplumber text layer, `_parse_deaths_from_text`
  regex extraction, optional OCR fallback) → CSV upsert in `main`.

Network, filesystem and PDF contents are modelled as explicit environment
inputs; text is modelled as `List Char`.  Regular-expression matching is
embedded with explicit greedy-backtracking semantics matching Python `re`.
-/

/-! ## Character classes (Python `re` semantics for the patterns used) -/

/-- Python whitespace (`\s` on `str` patterns / `str.isspace`): ASCII
whitespace plus the Unicode whitespace code points. -/
def pySpace (c : Char) : Bool :=
  [' ', '\t', '\n', '\r', '\x0b', '\x0c',
   '\x1c', '\x1d', '\x1e', '\x1f', '\x85', '\xa0',
   ' ', ' ', ' ', ' ', ' ', ' ', ' ',
   ' ', ' ', ' ', ' ', ' ', ' ', ' ',
   ' ', ' ', '　'].contains c

/-- The character class `[0-9,  \s]` built from `NUM_CHARS` in the
script (`NUM_CHARS = rf"0-9,{NBSP}{NNBSP}\s"`). -/
def isNumChar (c : Char) : Bool :=
  c.isDigit || c == ',' || c == '\xa0' || c == ' ' || pySpace c

/-- Membership of `c` in the class `[a-z]` under `re.IGNORECASE`: the
lowercase form of `c` is an ASCII lowercase letter. -/
def inAZci (c : Char) : Bool :=
  'a' ≤ c.toLower && c.toLower ≤ 'z'

/-- Case-insensitive character equality, as used by `re.IGNORECASE` for
literal characters. -/
def ciEq (a b : Char) : Bool := a.toLower == b.toLower

/-- Python `\w` (word character), restricted to the ASCII range in which all
inputs of interest live: letters, digits and underscore. -/
def isWordChar (c : Char) : Bool := c.isAlphanum || c == '_'

/-! ## Generic matching machinery -/

/-- Match a literal pattern case-insensitively at the head of the input;
return the remaining input on success. -/
def matchLitCI : List Char → List Char → Option (List Char)
  | [], s => some s
  | _ :: _, [] => none
  | p :: ps, c :: cs => if ciEq p c then matchLitCI ps cs else none

/-- Length of the maximal prefix of `l` whose characters all satisfy `p`
(the run a greedy character-class quantifier consumes). -/
def classRun (p : Char → Bool) : List Char → Nat
  | [] => 0
  | c :: t => if p c then classRun p t + 1 else 0

/-- The lengths a greedy bounded quantifier tries, in order:
`k, k-1, …, lo` (empty if `k < lo`). -/
def descList (lo : Nat) : Nat → List Nat
  | 0 => if lo = 0 then [0] else []
  | k + 1 => if lo ≤ k + 1 then (k + 1) :: descList lo k else []

/-- Greedy backtracking over a bounded quantifier: try the continuation at
each length from `k` down to `lo`, returning the first success. -/
def tryDesc (cont : Nat → Option α) (lo k : Nat) : Option α :=
  (descList lo k).findSome? cont

/-! ## `_parse_deaths_from_text`: pattern 1

`pat1 = re.compile(rf"palestinians[^{NUM_CHARS}]{{0,60}}([{NUM_CHARS}]{{5,}})[^a-z]{{0,20}}fatalities", re.I | re.S)`
-/

def palLit : List Char := "palestinians".toList

def fatLit : List Char := "fatalities".toList

/-- Attempt to match `pat1` anchored at the head of `s`; on success return
the text captured by group 1 (the digit/separator run). -/
def matchPat1At (s : List Char) : Option (List Char) :=
  match matchLitCI palLit s with
  | none => none
  | some s1 =>
    let g1max := min (classRun (fun c => !(isNumChar c)) s1) 60
    tryDesc (fun k =>
      let s2 := s1.drop k
      let rmax := classRun isNumChar s2
      tryDesc (fun r =>
        let run := s2.take r
        let s3 := s2.drop r
        let g2max := min (classRun (fun c => !(inAZci c)) s3) 20
        tryDesc (fun j =>
          match matchLitCI fatLit (s3.drop j) with
          | some _ => some run
          | none => none) 0 g2max) 5 rmax) 0 g1max

/-- `pat1.search(text)`: leftmost match, greedy backtracking at each start
position; returns group 1 of the first match. -/
def searchPat1 : List Char → Option (List Char)
  | [] => none
  | c :: t =>
    match matchPat1At (c :: t) with
    | some r => some r
    | none => searchPat1 t

/-! ## `_parse_deaths_from_text`: pattern 2 (line-by-line fallback)

`re.findall(rf"[{NUM_CHARS}]{{5,}}", line)` on each line containing
"palestinians" (case-insensitively); the loop breaks at the first line that
yields at least one run.
-/

/-- First match of `[NUM_CHARS]{5,}` in a line: the maximal `NUM_CHARS` run
at the leftmost position at which at least 5 such characters start. -/
def firstNumRun : List Char → Option (List Char)
  | [] => none
  | c :: t =>
    if isNumChar c then
      if 5 ≤ classRun isNumChar (c :: t) then
        some ((c :: t).take (classRun isNumChar (c :: t)))
      else firstNumRun t
    else firstNumRun t

/-- Python `pat in s.lower()` for a lowercase pattern: some suffix of `s`
starts with `pat` case-insensitively. -/
def containsCI (pat : List Char) : List Char → Bool
  | [] => (matchLitCI pat ([] : List Char)).isSome
  | c :: t => (matchLitCI pat (c :: t)).isSome || containsCI pat t

/-- Line-boundary characters recognised by Python `str.splitlines`. -/
def isLineBreak (c : Char) : Bool :=
  ['\n', '\r', '\x0b', '\x0c', '\x1c', '\x1d', '\x1e', '\x85',
   ' ', ' '].contains c

def splitlinesAux : List Char → List Char → List (List Char)
  | acc, [] => if acc.isEmpty then [] else [acc.reverse]
  | acc, '\r' :: '\n' :: t => acc.reverse :: splitlinesAux [] t
  | acc, c :: t =>
    if isLineBreak c then acc.reverse :: splitlinesAux [] t
    else splitlinesAux (c :: acc) t

/-- Python `str.splitlines()`. -/
def splitlines (s : List Char) : List (List Char) := splitlinesAux [] s

/-- The `for line in text.splitlines()` fallback of
`_parse_deaths_from_text`: the first digit run of the first line that both
mentions "palestinians" (case-insensitively) and contains such a run. -/
def pat2Search (text : List Char) : Option (List Char) :=
  (splitlines text).findSome? fun line =>
    if containsCI palLit line then firstNumRun line else none

/-! ## Normalization and `_parse_deaths_from_text` itself -/

/-- `num_str = re.sub(r"[^\d]", "", num_str)` followed by `int(num_str)`
(with `ValueError` on the empty string modelled as `none`). -/
def digitsToNat (ds : List Char) : Nat :=
  ds.foldl (fun n c => n * 10 + (c.toNat - 48)) 0

def normalizeRun (run : List Char) : Option Nat :=
  let ds := run.filter Char.isDigit
  if ds.isEmpty then none else some (digitsToNat ds)

/-- `_parse_deaths_from_text(text)`: pattern 1 first; if it fails, the
line-by-line fallback; then strip non-digits and parse, `None` on failure.
(A pattern-1 match is used even when its captured run contains no digit:
the Python `Match` object is truthy, so the fallback is not consulted.) -/
def parse_deaths_from_text (text : List Char) : Option Nat :=
  match searchPat1 text with
  | some g => normalizeRun g
  | none => (pat2Search text).bind normalizeRun

/-! ## `extract_deaths`

The PDF download and pdfplumber/pytesseract calls are modelled as
environment inputs: `text` is the concatenated text layer, and
`ocrText = some t` models `OCR_AVAILABLE = True` with OCR output `t`
(`none` models `OCR_AVAILABLE = False`).
-/

def extractErrMsg : String := "PDF から死亡者数が抽出できません"

/-- `extract_deaths` after the download: text-layer strategy guarded by
`text.strip()` and by Python truthiness of the parsed number (`if num:`),
then the OCR fallback, then `RuntimeError`. -/
def extract_deaths (text : List Char) (ocrText : Option (List Char)) :
    Except String Nat :=
  let fromText : Option Nat :=
    if text.all pySpace then none
    else
      match parse_deaths_from_text text with
      | some n => if n = 0 then none else some n
      | none => none
  match fromText with
  | some n => .ok n
  | none =>
    match ocrText with
    | some t =>
      match parse_deaths_from_text t with
      | some n => if n = 0 then .error extractErrMsg else .ok n
      | none => .error extractErrMsg
    | none => .error extractErrMsg

/-! ## Calendar dates

`dateutil` returns `datetime` values; the script only ever uses the calendar
date and Python's `datetime` ordering is lexicographic on
(year, month, day). -/

structure Date where
  year : Nat
  month : Nat
  day : Nat
deriving DecidableEq, Repr

/-- Strict `datetime` comparison: lexicographic on (year, month, day). -/
def Date.ltb (a b : Date) : Bool :=
  a.year < b.year ||
    (a.year = b.year &&
      (a.month < b.month || (a.month = b.month && a.day < b.day)))

def Date.leb (a b : Date) : Bool := Date.ltb a b || a == b

/-- Python's `max` over a nonempty list: keep the earlier element on ties. -/
def maxDate (d : Date) (ds : List Date) : Date :=
  ds.foldl (fun a b => if Date.ltb a b then b else a) d

/-! ## The listing-page title regex

`re.match(r"Reported impact snapshot \| Gaza Strip \((\d{1,2} \w+ \d{4})\)", title, re.I)`

anchored at the start of the anchor text, compiled with `IGNORECASE`; group 1
captures `\d{1,2} \w+ \d{4}`.
-/

def titleLit : List Char := "Reported impact snapshot | Gaza Strip (".toList

def matchClose (day month year : List Char) : List Char → Option (List Char)
  | [] => none
  | c :: _ =>
    if c == ')' then some (day ++ ' ' :: (month ++ ' ' :: year)) else none

def matchYear (day month : List Char) (s2 : List Char) : Option (List Char) :=
  let year := s2.take 4
  if year.length = 4 && year.all Char.isDigit then
    matchClose day month year (s2.drop 4)
  else none

def matchFromSpace2 (day month : List Char) : List Char → Option (List Char)
  | [] => none
  | c :: s2 => if c == ' ' then matchYear day month s2 else none

/-- `\w+` (greedy, with backtracking) followed by the rest of the pattern. -/
def matchMonth (day : List Char) (s1 : List Char) : Option (List Char) :=
  tryDesc (fun j => matchFromSpace2 day (s1.take j) (s1.drop j)) 1
    (classRun isWordChar s1)

def matchFromSpace1 (day : List Char) : List Char → Option (List Char)
  | [] => none
  | c :: s1 => if c == ' ' then matchMonth day s1 else none

/-- One branch of the greedy `\d{1,2}`: a day field of exactly `k` digits. -/
def tryDay (k : Nat) (s0 : List Char) : Option (List Char) :=
  let day := s0.take k
  if day.length = k && day.all Char.isDigit then
    matchFromSpace1 day (s0.drop k)
  else none

/-- `re.match` of the title pattern on an anchor text: `none` if the anchor
is not a candidate, otherwise `some` of the captured date text. -/
def titleMatch? (t : List Char) : Option (List Char) :=
  match matchLitCI titleLit t with
  | none => none
  | some s0 =>
    match tryDay 2 s0 with
    | some g => some g
    | none => tryDay 1 s0

/-! ## `dateutil.parser.parse(s, dayfirst=True)`

Modelled for the `"<day> <month-word> <year>"` strings produced by the title
regex: day-first numeric day, English month name or abbreviation, 4-digit
year; an unknown month word or an out-of-range day raises (modelled as
`none`). -/

def lowerList (s : List Char) : List Char := s.map Char.toLower

def monthTable : List (String × Nat) :=
  [(r"january", 1), (r"jan", 1), (r"february", 2), (r"feb", 2),
   (r"march", 3), (r"mar", 3), (r"april", 4), (r"apr", 4), (r"may", 5),
   (r"june", 6), (r"jun", 6), (r"july", 7), (r"jul", 7),
   (r"august", 8), (r"aug", 8),
   (r"september", 9), (r"sept", 9), (r"sep", 9),
   (r"october", 10), (r"oct", 10), (r"november", 11), (r"nov", 11),
   (r"december", 12), (r"dec", 12)]

def monthIndex (w : List Char) : Option Nat :=
  (monthTable.find? (fun p => p.fst.toList == lowerList w)).map (·.snd)

def isLeap (y : Nat) : Bool := (y % 4 = 0 && y % 100 ≠ 0) || y % 400 = 0

def daysInMonth (y m : Nat) : Nat :=
  if m = 2 then (if isLeap y then 29 else 28)
  else if m == 4 || m == 6 || m == 9 || m == 11 then 30
  else 31

def splitSpAux : List Char → List Char → List (List Char)
  | acc, [] => [acc.reverse]
  | acc, c :: t =>
    if c == ' ' then acc.reverse :: splitSpAux [] t
    else splitSpAux (c :: acc) t

def splitSp (s : List Char) : List (List Char) := splitSpAux [] s

def parseDateDayfirst (s : List Char) : Option Date :=
  match splitSp s with
  | [dstr, mstr, ystr] =>
    if !dstr.isEmpty && dstr.all Char.isDigit &&
        !ystr.isEmpty && ystr.all Char.isDigit then
      match monthIndex mstr with
      | some m =>
        let d := digitsToNat dstr
        let y := digitsToNat ystr
        if 1 ≤ d && d ≤ daysInMonth y m then some ⟨y, m, d⟩ else none
      | none => none
    else none
  | _ => none

/-! ## `find_latest_pdf_url` -/

def listErrMsg : String := "一覧ページから日付を取得できません"

def rwErrMsg : String := "ReliefWeb API でも PDF URL が見つかりません"

/-- An anchor whose title matches the regex but whose captured date text is
rejected by `dateutil` makes the script die with an uncaught parser error. -/
def dateutilErrMsg : String := "dateutil.parser.ParserError"

/-- The `for a in soup.find_all("a")` loop collecting `snapshots`: one parsed
date per anchor whose text matches the title regex. -/
def collectSnapshots : List (List Char) → Except String (List Date)
  | [] => .ok []
  | a :: t =>
    match titleMatch? a with
    | none => collectSnapshots t
    | some g =>
      match parseDateDayfirst g with
      | none => .error dateutilErrMsg
      | some d =>
        match collectSnapshots t with
        | .error e => .error e
        | .ok ds => .ok (d :: ds)

def monthNames : List String :=
  [r"January", r"February", r"March", r"April", r"May", r"June", r"July",
   r"August", r"September", r"October", r"November", r"December"]

/-- `latest.strftime("%B")`. -/
def monthName (m : Nat) : String := monthNames.getD (m - 1) (r"")

/-- `f"{latest.day:02d}"`. -/
def twoDigit (n : Nat) : String :=
  if n < 10 then r"0" ++ toString n else toString n

def snapshotUrlBase : String :=
  r"https://www.ochaopt.org/sites/default/files/Gaza_Reported_Impact_Snapshot_"

/-- The three guessed filename patterns, in the order the script probes
them. -/
def candidateUrls (d : Date) : List String :=
  let stem := snapshotUrlBase ++ twoDigit d.day ++ r"_" ++ monthName d.month
    ++ r"_" ++ toString d.year
  [stem ++ r"%20final.pdf", stem ++ r"-final.pdf", stem ++ r".pdf"]

/-- The network environment of `find_latest_pdf_url`: the anchor texts of the
listing page, the outcome of `requests.head(url).ok` per URL, and the
ReliefWeb fallback modelled as `some (attachment url, parsed date)` when the
API response exposes them and `none` when any field access fails. -/
structure ScrapeEnv where
  anchors : List (List Char)
  headOk : String → Bool
  reliefweb : Option (String × Date)

/-- `find_latest_pdf_url`: scan the listing anchors; raise if no candidate;
else probe the three guessed URLs for the maximal date; else fall back to
ReliefWeb; else raise. -/
def find_latest_pdf_url (env : ScrapeEnv) : Except String (String × Date) :=
  match collectSnapshots env.anchors with
  | .error e => .error e
  | .ok [] => .error listErrMsg
  | .ok (d :: ds) =>
    let latest := maxDate d ds
    match (candidateUrls latest).find? env.headOk with
    | some url => .ok (url, latest)
    | none =>
      match env.reliefweb with
      | some (url, dt) => .ok (url, dt)
      | none => .error rwErrMsg

/-! ## The CSV ledger (`main`'s update step)

`df` is the ledger: rows of (date, fatalities).  `pd.concat` appends,
`sort_values("date")` re-sorts by date.
-/

structure LedgerEntry where
  date : Date
  fatalities : Nat
deriving DecidableEq, Repr

def insertE (e : LedgerEntry) : List LedgerEntry → List LedgerEntry
  | [] => [e]
  | x :: xs => if Date.leb e.date x.date then e :: x :: xs else x :: insertE e xs

/-- `df.sort_values("date")` as an insertion sort on the date key. -/
def sortLedger : List LedgerEntry → List LedgerEntry
  | [] => []
  | x :: xs => insertE x (sortLedger xs)

/-- The CSV update of `main`: if the date is already present the frame is
left untouched, otherwise the new row is appended and the frame re-sorted. -/
def upsert (l : List LedgerEntry) (d : Date) (c : Nat) : List LedgerEntry :=
  if l.any (fun e => decide (e.date = d)) then l
  else sortLedger (l ++ [⟨d, c⟩])

/-- A whole run's worth of ledger updates. -/
def applyOps (ops : List (Date × Nat)) (l : List LedgerEntry) :
    List LedgerEntry :=
  ops.foldl (fun acc p => upsert acc p.fst p.snd) l

/-- The ledger invariant: entry dates strictly ascending (hence pairwise
distinct and sorted). -/
def sortedDistinct (l : List LedgerEntry) : Prop :=
  l.Pairwise fun a b => Date.ltb a.date b.date = true

/-! ## `main` and the process exit -/

/-- The environment of one `main` run: the scrape environment plus the PDF
download/text-layer outcome and OCR availability per URL. -/
structure PipelineEnv where
  scrape : ScrapeEnv
  pdfText : String → Except String (List Char)
  ocr : String → Option (List Char)

/-- `main` up to the CSV write: locate, download and extract, then upsert;
any raised error propagates and the stored ledger is returned unchanged by
`scriptExit` below. -/
def runScript (env : PipelineEnv) (stored : List LedgerEntry) :
    Except String (List LedgerEntry) :=
  match find_latest_pdf_url env.scrape with
  | .error e => .error e
  | .ok (url, d) =>
    match env.pdfText url with
    | .error e => .error e
    | .ok t =>
      match extract_deaths t (env.ocr url) with
      | .error e => .error e
      | .ok c => .ok (upsert stored d c)

/-- The `if __name__ == "__main__"` wrapper: exit code 1 on any exception
(with the stored CSV untouched), 0 on success (with the updated CSV). -/
def scriptExit (env : PipelineEnv) (stored : List LedgerEntry) :
    Nat × List LedgerEntry :=
  match runScript env stored with
  | .error _ => (1, stored)
  | .ok l => (0, l)

/-! ## Spec-side resolver (for claim C3)

The specification describes a `PdfResolver` whose primary strategy scans the
snapshot's landing page for a document anchor.  No such code exists in
`scripts/scrape.py`; the definition below follows the spec's words so that it
can be compared with what the script actually does. -/

/-- Modelled from the spec: "Fetches the landing page, scans anchors for an
href whose path ends in the document's expected file extension
(case-insensitive), returns the first match, absolutized against a known
base URL."  The landing-page anchor scan is absent from the source. -/
def resolve_spec (anchorHrefs : List String) (base : String) : Option String :=
  (anchorHrefs.find? fun h =>
      (lowerList h.toList).reverse.take 4 == ('f' :: 'd' :: 'p' :: '.' :: [])).map
    fun h =>
      if h.toList.take 4 == ('h' :: 't' :: 't' :: 'p' :: []) then h
      else base ++ h

/-! ## Auxiliary definitions used by the statements -/

/-- Case-insensitive equality of two character lists. -/
def ciEqList : List Char → List Char → Bool
  | [], [] => true
  | a :: as, b :: bs => ciEq a b && ciEqList as bs
  | _, _ => false

/-- The shape of anchor texts described by the spec for the title pattern,
with the literal prefix compared case-insensitively (the amendment claim
C2 forces): prefix, 1–2 digit day, word month, 4-digit year, `)`. -/
def titlePatternHolds (t : List Char) : Prop :=
  ∃ pre day month year rest,
    t = pre ++ (day ++ ' ' :: (month ++ ' ' :: (year ++ ')' :: rest))) ∧
    ciEqList titleLit pre = true ∧
    1 ≤ day.length ∧ day.length ≤ 2 ∧ day.all Char.isDigit = true ∧
    1 ≤ month.length ∧ month.all isWordChar = true ∧
    year.length = 4 ∧ year.all Char.isDigit = true

/-! ## Concrete inputs for witnesses and counterexamples -/

def exTitle : List Char :=
  "Reported impact snapshot | Gaza Strip (07 May 2025)".toList

def upperTitle : List Char :=
  "REPORTED IMPACT SNAPSHOT | GAZA STRIP (07 May 2025)".toList

def exDate : Date := ⟨2025, 5, 7⟩

def rwUrl : String := r"https://api.reliefweb.int/attachments/snapshot.pdf"

/-- A listing page with no matching anchor, HEAD always failing, but a
ReliefWeb fallback result available. -/
def envEmptyListing : ScrapeEnv :=
  ⟨[], fun _ => false, some (rwUrl, ⟨2025, 4, 30⟩)⟩

/-- A listing page with one matching anchor, all HEAD probes failing, and a
ReliefWeb fallback result available. -/
def envHeadFail : ScrapeEnv :=
  ⟨[exTitle], fun _ => false, some (rwUrl, ⟨2025, 4, 30⟩)⟩

/-- Like `envHeadFail` but with the ReliefWeb fallback also empty. -/
def envAllFail : ScrapeEnv :=
  ⟨[exTitle], fun _ => false, none⟩

/-- The second guessed URL (`…-final.pdf`) for the example date. -/
def cand2Url : String := (candidateUrls exDate).getD 1 (r"")

/-- A listing page whose HEAD probe succeeds on the second guessed URL. -/
def envProbe : ScrapeEnv := ⟨[exTitle], fun u => u == cand2Url, none⟩

/-- A landing page (as the spec imagines it) with one PDF anchor. -/
def landingAnchors : List String := [r"/2025/05/gaza_snapshot.pdf"]

def landingBase : String := r"https://www.ochaopt.org"

def goodText : List Char := "Palestinians: 52,653 fatalities".toList

/-- A text whose matched run strips to `00000`, i.e. normalizes to zero. -/
def zeroText : List Char := "Palestinians: 00,000 fatalities".toList

/-- A text whose matched run strips to nothing (no digits at all). -/
def noDigitText : List Char := "palestinians ,,,,, fatalities".toList

/-- A pipeline environment in which every stage succeeds. -/
def envSuccess : PipelineEnv :=
  ⟨envProbe, fun _ => .ok goodText, fun _ => none⟩

/-- A pipeline environment failing at the locate stage. -/
def envFailLocate : PipelineEnv :=
  ⟨envAllFail, fun _ => .ok goodText, fun _ => none⟩

/-- A pipeline environment failing at the download stage. -/
def envFailDownload : PipelineEnv :=
  ⟨envProbe, fun _ => .error (r"requests.exceptions.ConnectionError"), fun _ => none⟩

/-- A pipeline environment failing at the extraction stage. -/
def envFailExtract : PipelineEnv :=
  ⟨envProbe, fun _ => .ok ((r"no numbers here").toList), fun _ => none⟩

/-! ## Helper lemmas: character runs, greedy backtracking, literals -/

theorem classRun_le_length (p : Char → Bool) :
    ∀ l : List Char, classRun p l ≤ l.length
  | [] => Nat.le_refl 0
  | c :: t => by
    simp only [classRun]
    split
    · exact Nat.succ_le_succ (classRun_le_length p t)
    · exact Nat.zero_le _

theorem classRun_append (p : Char → Bool) (xs ys : List Char)
    (h : ∀ c ∈ xs, p c = true) :
    classRun p (xs ++ ys) = xs.length + classRun p ys := by
  induction xs with
  | nil => simp [classRun]
  | cons c t ih =>
    have hc : p c = true := h c (List.mem_cons_self c t)
    have ht := ih fun d hd => h d (List.mem_cons_of_mem c hd)
    show classRun p (c :: (t ++ ys)) = (c :: t).length + classRun p ys
    have hstep : classRun p (c :: (t ++ ys)) = classRun p (t ++ ys) + 1 := by
      simp [classRun, hc]
    rw [hstep, ht, List.length_cons]
    omega

theorem classRun_eq_zero {p : Char → Bool} {c : Char} (t : List Char)
    (h : p c = false) : classRun p (c :: t) = 0 := by
  simp [classRun, h]

theorem all_take_of_le_classRun {p : Char → Bool} :
    ∀ (l : List Char) (j : Nat), j ≤ classRun p l → (l.take j).all p = true
  | _, 0, _ => by simp
  | [], j + 1, h => by simp [classRun] at h
  | c :: t, j + 1, h => by
    by_cases hc : p c = true
    · simp only [List.take_succ_cons, List.all_cons, hc, Bool.true_and]
      exact all_take_of_le_classRun t j (by simpa [classRun, hc] using h)
    · simp [classRun_eq_zero t (by simpa using hc)] at h

theorem mem_descList {lo j : Nat} :
    ∀ {k : Nat}, j ∈ descList lo k ↔ lo ≤ j ∧ j ≤ k := by
  intro k
  induction k with
  | zero =>
    simp only [descList]
    split
    · simp; omega
    · simp; omega
  | succ k ih =>
    simp only [descList]
    split
    · simp only [List.mem_cons, ih]
      omega
    · simp; omega

theorem findSome?_isSome_of_mem {α β : Type} {f : α → Option β} {l : List α}
    {a : α} (ha : a ∈ l) (hf : (f a).isSome) : (l.findSome? f).isSome := by
  induction l with
  | nil => cases ha
  | cons x xs ih =>
    rw [List.findSome?_cons]
    cases hx : f x with
    | some b => simp
    | none =>
      rcases List.mem_cons.mp ha with rfl | h
      · rw [hx] at hf; simp at hf
      · exact ih h

theorem eq_some_of_findSome? {α β : Type} {f : α → Option β} {b : β} :
    ∀ {l : List α}, l.findSome? f = some b → ∃ a ∈ l, f a = some b := by
  intro l
  induction l with
  | nil => intro h; simp [List.findSome?_nil] at h
  | cons x xs ih =>
    intro h
    rw [List.findSome?_cons] at h
    cases hx : f x with
    | some c =>
      rw [hx] at h
      refine ⟨x, List.mem_cons_self x xs, ?_⟩
      rw [hx]
      exact h
    | none =>
      rw [hx] at h
      obtain ⟨a, ha, hfa⟩ := ih h
      exact ⟨a, List.mem_cons_of_mem x ha, hfa⟩

theorem tryDesc_eq_of_top {α : Type} {cont : Nat → Option α} {lo k : Nat}
    {r : α} (h : lo ≤ k) (hc : cont k = some r) : tryDesc cont lo k = some r := by
  cases k with
  | zero =>
    have : lo = 0 := Nat.le_zero.mp h
    simp [tryDesc, descList, this, List.findSome?_cons, hc]
  | succ k =>
    simp [tryDesc, descList, h, List.findSome?_cons, hc]

theorem tryDesc_some {α : Type} {cont : Nat → Option α} {lo k : Nat} {r : α}
    (h : tryDesc cont lo k = some r) : ∃ j, lo ≤ j ∧ j ≤ k ∧ cont j = some r := by
  obtain ⟨j, hj, hc⟩ := eq_some_of_findSome? h
  exact ⟨j, (mem_descList.mp hj).1, (mem_descList.mp hj).2, hc⟩

theorem tryDesc_isSome {α : Type} {cont : Nat → Option α} {lo k j : Nat}
    (h1 : lo ≤ j) (h2 : j ≤ k) (hc : (cont j).isSome) :
    (tryDesc cont lo k).isSome :=
  findSome?_isSome_of_mem (mem_descList.mpr ⟨h1, h2⟩) hc

theorem ciEqList_refl : ∀ l : List Char, ciEqList l l = true
  | [] => rfl
  | c :: t => by simp [ciEqList, ciEq, ciEqList_refl t]

theorem ciEqList_length : ∀ {a b : List Char}, ciEqList a b = true →
    a.length = b.length
  | [], [], _ => rfl
  | [], _ :: _, h => by simp [ciEqList] at h
  | _ :: _, [], h => by simp [ciEqList] at h
  | _ :: as, _ :: bs, h => by
    simp only [ciEqList, Bool.and_eq_true] at h
    simp [ciEqList_length h.2]

theorem matchLitCI_append : ∀ {pat pre : List Char},
    ciEqList pat pre = true → ∀ s, matchLitCI pat (pre ++ s) = some s
  | [], [], _, s => rfl
  | [], _ :: _, h, _ => by simp [ciEqList] at h
  | _ :: _, [], h, _ => by simp [ciEqList] at h
  | p :: ps, c :: cs, h, s => by
    simp only [ciEqList, Bool.and_eq_true] at h
    simp only [List.cons_append, matchLitCI, h.1, if_true]
    exact matchLitCI_append h.2 s

theorem matchLitCI_some : ∀ {pat t s : List Char},
    matchLitCI pat t = some s → ∃ pre, t = pre ++ s ∧ ciEqList pat pre = true
  | [], t, s, h => by
    simp only [matchLitCI, Option.some.injEq] at h
    exact ⟨[], by simp [h], rfl⟩
  | _ :: _, [], _, h => by simp [matchLitCI] at h
  | p :: ps, c :: cs, s, h => by
    simp only [matchLitCI] at h
    split at h
    · obtain ⟨pre, hpre, hci⟩ := matchLitCI_some h
      refine ⟨c :: pre, by simp [hpre], ?_⟩
      simp only [ciEqList, Bool.and_eq_true]
      exact ⟨by assumption, hci⟩
    · cases h

/-! ## Lemmas about pattern 1 -/

theorem matchLitCI_pal_cons {c : Char} (t : List Char)
    (h : ciEq 'p' c = false) : matchLitCI palLit (c :: t) = none := by
  show matchLitCI ('p' :: _) (c :: t) = none
  simp [matchLitCI, h]

theorem searchPat1_cons (c : Char) (t : List Char) :
    searchPat1 (c :: t) =
      match matchPat1At (c :: t) with
      | some r => some r
      | none => searchPat1 t := rfl

theorem searchPat1_append {pre : List Char} (rest : List Char)
    (h : ∀ c ∈ pre, ciEq 'p' c = false) :
    searchPat1 (pre ++ rest) = searchPat1 rest := by
  induction pre with
  | nil => rfl
  | cons c t ih =>
    have hm : matchPat1At (c :: (t ++ rest)) = none := by
      simp [matchPat1At, matchLitCI_pal_cons _ (h c (List.mem_cons_self c t))]
    rw [List.cons_append, searchPat1_cons, hm]
    exact ih fun d hd => h d (List.mem_cons_of_mem c hd)

theorem matchPat1At_success
    (P g1 run g2 post : List Char)
    (hP : ciEqList palLit P = true)
    (hg1a : ∀ c ∈ g1, isNumChar c = false) (hg1b : g1.length ≤ 60)
    (hruna : ∀ c ∈ run, isNumChar c = true) (hrunb : 5 ≤ run.length)
    (hg2a : ∀ c ∈ g2, isNumChar c = false)
    (hg2b : ∀ c ∈ g2, inAZci c = false) (hg2c : g2.length ≤ 20) :
    matchPat1At (P ++ (g1 ++ (run ++ (g2 ++ (fatLit ++ post))))) = some run := by
  obtain ⟨r0, rt, rfl⟩ : ∃ r0 rt, run = r0 :: rt := by
    cases run with
    | nil => simp at hrunb
    | cons a b => exact ⟨a, b, rfl⟩
  have hr0 : isNumChar r0 = true := hruna r0 (List.mem_cons_self r0 rt)
  have hfg2 : classRun (fun c => !(inAZci c)) (g2 ++ (fatLit ++ post))
      = g2.length := by
    rw [classRun_append _ _ _ (fun c hc => by simp [hg2b c hc])]
    have h0 : classRun (fun c => !(inAZci c)) (fatLit ++ post) = 0 := by
      show classRun _ ('f' :: _) = 0
      exact classRun_eq_zero _ (by decide)
    omega
  have hnum0 : classRun isNumChar (g2 ++ (fatLit ++ post)) = 0 := by
    cases g2 with
    | nil =>
      show classRun _ ('f' :: _) = 0
      exact classRun_eq_zero _ (by decide)
    | cons g gt =>
      show classRun _ (g :: _) = 0
      exact classRun_eq_zero _ (hg2a g (List.mem_cons_self g gt))
  have hnumrun : classRun isNumChar ((r0 :: rt) ++ (g2 ++ (fatLit ++ post)))
      = (r0 :: rt).length := by
    rw [classRun_append _ _ _ hruna, hnum0]
    omega
  have hg1cr : classRun (fun c => !(isNumChar c))
      (g1 ++ ((r0 :: rt) ++ (g2 ++ (fatLit ++ post)))) = g1.length := by
    rw [classRun_append _ _ _ (fun c hc => by simp [hg1a c hc])]
    have h0 : classRun (fun c => !(isNumChar c))
        ((r0 :: rt) ++ (g2 ++ (fatLit ++ post))) = 0 := by
      show classRun _ (r0 :: _) = 0
      exact classRun_eq_zero _ (by simp [hr0])
    omega
  simp only [matchPat1At, matchLitCI_append hP, hg1cr]
  rw [Nat.min_eq_left hg1b]
  refine tryDesc_eq_of_top (Nat.zero_le _) ?_
  simp only [List.drop_left, hnumrun]
  refine tryDesc_eq_of_top hrunb ?_
  simp only [List.take_left, List.drop_left, hfg2]
  rw [Nat.min_eq_left hg2c]
  refine tryDesc_eq_of_top (Nat.zero_le _) ?_
  simp only [List.drop_left, matchLitCI_append (ciEqList_refl fatLit)]

/-- Claim C5: a nonnegative integer rendered with group separators, embedded
in a text of the shape `… Palestinians <gap> <number run> <gap> fatalities …`
(the gaps within the regex's bounded spans, whitespace variants around the
digits absorbed into the run, and the shown "Palestinians" being the first
case-insensitive occurrence), is extracted exactly: `_parse_deaths_from_text`
returns the integer whose decimal digits are the digits of the run. -/
theorem C5_extraction_round_trip
    (pre P g1 run g2 post : List Char) (n : Nat)
    (hpre : ∀ c ∈ pre, ciEq 'p' c = false)
    (hP : ciEqList palLit P = true)
    (hg1a : ∀ c ∈ g1, isNumChar c = false) (hg1b : g1.length ≤ 60)
    (hruna : ∀ c ∈ run, isNumChar c = true) (hrunb : 5 ≤ run.length)
    (hg2a : ∀ c ∈ g2, isNumChar c = false)
    (hg2b : ∀ c ∈ g2, inAZci c = false) (hg2c : g2.length ≤ 20)
    (hdig : run.filter Char.isDigit ≠ [])
    (hval : digitsToNat (run.filter Char.isDigit) = n) :
    parse_deaths_from_text
      (pre ++ (P ++ (g1 ++ (run ++ (g2 ++ (fatLit ++ post)))))) = some n := by
  have hm := matchPat1At_success P g1 run g2 post hP hg1a hg1b hruna hrunb hg2a hg2b hg2c
  obtain ⟨p0, pt, hPe⟩ : ∃ p0 pt, P = p0 :: pt := by
    cases P with
    | nil => simp [ciEqList] at hP
    | cons a b => exact ⟨a, b, rfl⟩
  have hsearch : searchPat1
      (pre ++ (P ++ (g1 ++ (run ++ (g2 ++ (fatLit ++ post)))))) = some run := by
    rw [searchPat1_append _ hpre, hPe, List.cons_append, searchPat1_cons]
    rw [hPe, List.cons_append] at hm
    simp [hm]
  cases hds : run.filter Char.isDigit with
  | nil => exact absurd hds hdig
  | cons d dt =>
    rw [hds] at hval
    simp [parse_deaths_from_text, hsearch, normalizeRun, hds, hval]

/-- Witness for C5 at the end-to-end example text
`"Palestinians: 52,653 fatalities"`. -/
theorem C5_extraction_round_trip_witness :
    parse_deaths_from_text goodText = some 52653 := by
  have h := C5_extraction_round_trip [] ((r"Palestinians").toList)
    ((r":").toList) ((r" 52,653 ").toList) [] [] 52653
    (by decide) (by decide) (by decide) (by decide) (by decide) (by decide)
    (by decide) (by decide) (by decide) (by decide) (by decide)
  exact h

/-! ## Claims C6 and C10: normalization failures and zero counts -/

theorem extract_deaths_never_zero :
    ∀ (text : List Char) (ocrText : Option (List Char)),
      extract_deaths text ocrText = .ok 0 → False := by
  intro text ocrText h
  simp only [extract_deaths] at h
  split at h
  · rename_i n heq
    cases h
    split at heq
    · cases heq
    · split at heq
      · rename_i m hm
        split at heq
        · cases heq
        · rename_i hne
          cases heq
          exact hne rfl
      · cases heq
  · split at h
    · rename_i t
      split at h
      · rename_i m hm
        split at h
        · cases h
        · rename_i hne
          cases h
          exact hne rfl
      · cases h
    · cases h

/-- Claim C6: a matched run whose remainder after stripping all non-digit
characters is empty is a failure, not a zero: `normalizeRun` yields `none`,
a pattern-1 match with a digit-free capture makes `_parse_deaths_from_text`
return `None`, and when no strategy succeeds `extract_deaths` raises the
extraction error. -/
theorem C6_empty_digits_failure :
    (∀ run : List Char, run.filter Char.isDigit = [] →
        normalizeRun run = none) ∧
    (∀ text g : List Char, searchPat1 text = some g →
        g.filter Char.isDigit = [] → parse_deaths_from_text text = none) ∧
    (∀ text : List Char, parse_deaths_from_text text = none →
        extract_deaths text none = .error extractErrMsg) := by
  refine ⟨?_, ?_, ?_⟩
  · intro run h
    simp [normalizeRun, h]
  · intro text g hs hd
    simp [parse_deaths_from_text, hs, normalizeRun, hd]
  · intro text h
    simp [extract_deaths, h]

/-- Witness for C6: the run `" ,,,,, "` matched by pattern 1 in
`"palestinians ,,,,, fatalities"` strips to the empty string, and the parse
fails rather than returning zero. -/
theorem C6_empty_digits_failure_witness :
    parse_deaths_from_text noDigitText = none :=
  C6_empty_digits_failure.2.1 noDigitText ((r" ,,,,, ").toList)
    (by decide) (by decide)

/-- Claim C10: a matching digit run that normalizes to the integer 0 is
treated as if no match was found: `extract_deaths` never returns `.ok 0`;
with the text layer parsing to 0 and no OCR the run fails with the
extraction error, and with OCR available the OCR text's result is used. -/
theorem C10_zero_treated_as_no_match :
    (∀ (text : List Char) (ocrText : Option (List Char)) (n : Nat),
        extract_deaths text ocrText = .ok n → n ≠ 0) ∧
    (∀ text : List Char, parse_deaths_from_text text = some 0 →
        extract_deaths text none = .error extractErrMsg) ∧
    (∀ (text t : List Char) (c : Nat), parse_deaths_from_text text = some 0 →
        parse_deaths_from_text t = some c → c ≠ 0 →
        extract_deaths text (some t) = .ok c) := by
  refine ⟨?_, ?_, ?_⟩
  · intro text ocrText n h hn
    rw [hn] at h
    exact extract_deaths_never_zero text ocrText h
  · intro text hp
    simp [extract_deaths, hp]
  · intro text t c hp hpt hc
    simp [extract_deaths, hp, hpt, hc]

/-- Witness for C10: a text whose run is `00,000` together with OCR output
containing the real number yields the OCR result, never zero. -/
theorem C10_zero_treated_as_no_match_witness :
    extract_deaths zeroText (some goodText) = .ok 52653 :=
  C10_zero_treated_as_no_match.2.2 zeroText goodText 52653
    (by decide) (by decide) (by decide)

/-! ## Date ordering lemmas -/

theorem Date.ltb_irrefl (a : Date) : Date.ltb a a = false := by
  cases a
  simp [Date.ltb]

theorem Date.leb_refl (a : Date) : Date.leb a a = true := by
  simp [Date.leb]

theorem Date.leb_total (a b : Date) :
    Date.leb a b = true ∨ Date.leb b a = true := by
  cases a with
  | mk ay am ad =>
    cases b with
    | mk cy cm cd =>
      simp only [Date.leb, Date.ltb, Bool.or_eq_true, Bool.and_eq_true,
        decide_eq_true_eq, beq_iff_eq, Date.mk.injEq]
      omega

theorem Date.leb_trans {a b c : Date} (h1 : Date.leb a b = true)
    (h2 : Date.leb b c = true) : Date.leb a c = true := by
  cases a with
  | mk ay am ad =>
    cases b with
    | mk my mm md =>
      cases c with
      | mk cy cm cd =>
        simp only [Date.leb, Date.ltb, Bool.or_eq_true, Bool.and_eq_true,
          decide_eq_true_eq, beq_iff_eq, Date.mk.injEq] at h1 h2 ⊢
        omega

theorem Date.ltb_of_leb_ne {a b : Date} (h1 : Date.leb a b = true)
    (h2 : a ≠ b) : Date.ltb a b = true := by
  rcases Bool.or_eq_true _ _ |>.mp h1 with h | h
  · exact h
  · exact absurd (beq_iff_eq.mp h) h2

theorem Date.leb_of_ltb {a b : Date} (h : Date.ltb a b = true) :
    Date.leb a b = true := by
  simp [Date.leb, h]

/-! ## `max(snapshots)` lemmas -/

theorem maxDate_cons (d x : Date) (xs : List Date) :
    maxDate d (x :: xs) = maxDate (if Date.ltb d x then x else d) xs := rfl

theorem maxDate_mem : ∀ (ds : List Date) (d : Date),
    maxDate d ds = d ∨ maxDate d ds ∈ ds
  | [], _ => Or.inl rfl
  | x :: xs, d => by
    rw [maxDate_cons]
    rcases maxDate_mem xs (if Date.ltb d x then x else d) with h | h
    · by_cases hc : Date.ltb d x = true
      · right
        rw [h]
        simp [hc]
      · left
        rw [h]
        simp [hc]
    · right
      exact List.mem_cons_of_mem x h

theorem maxDate_le : ∀ (ds : List Date) (d : Date),
    Date.leb d (maxDate d ds) = true ∧
      ∀ x ∈ ds, Date.leb x (maxDate d ds) = true
  | [], d => ⟨Date.leb_refl d, by simp⟩
  | x :: xs, d => by
    rw [maxDate_cons]
    obtain ⟨h1, h2⟩ := maxDate_le xs (if Date.ltb d x then x else d)
    by_cases hc : Date.ltb d x = true
    · rw [if_pos hc] at h1 h2 ⊢
      refine ⟨Date.leb_trans (Date.leb_of_ltb hc) h1, ?_⟩
      intro y hy
      rcases List.mem_cons.mp hy with rfl | hy
      · exact h1
      · exact h2 y hy
    · rw [if_neg hc] at h1 h2 ⊢
      refine ⟨h1, ?_⟩
      intro y hy
      rcases List.mem_cons.mp hy with rfl | hy
      · have hyd : Date.leb y d = true := by
          rcases Date.leb_total d y with h | h
          · rcases Bool.or_eq_true _ _ |>.mp h with h' | h'
            · exact absurd h' hc
            · rw [beq_iff_eq.mp h']
              exact Date.leb_refl y
          · exact h
        exact Date.leb_trans hyd h1
      · exact h2 y hy

/-! ## Ledger sorting lemmas -/

theorem insertE_perm (e : LedgerEntry) :
    ∀ l : List LedgerEntry, (insertE e l).Perm (e :: l)
  | [] => List.Perm.refl _
  | x :: xs => by
    simp only [insertE]
    split
    · exact List.Perm.refl _
    · exact ((insertE_perm e xs).cons x).trans (List.Perm.swap e x xs)

theorem sortLedger_perm : ∀ l : List LedgerEntry, (sortLedger l).Perm l
  | [] => List.Perm.refl _
  | x :: xs => (insertE_perm x (sortLedger xs)).trans
      ((sortLedger_perm xs).cons x)

theorem insertE_sorted (e : LedgerEntry) {l : List LedgerEntry}
    (h : l.Pairwise fun a b => Date.leb a.date b.date = true) :
    (insertE e l).Pairwise fun a b => Date.leb a.date b.date = true := by
  induction l with
  | nil => simp [insertE]
  | cons x xs ih =>
    rw [List.pairwise_cons] at h
    simp only [insertE]
    split
    · rename_i hle
      refine List.pairwise_cons.mpr ⟨?_, List.pairwise_cons.mpr h⟩
      intro b hb
      rcases List.mem_cons.mp hb with rfl | hb
      · exact hle
      · exact Date.leb_trans hle (h.1 b hb)
    · rename_i hgt
      have hxe : Date.leb x.date e.date = true := by
        rcases Date.leb_total e.date x.date with h1 | h1
        · rw [h1] at hgt
          simp at hgt
        · exact h1
      refine List.pairwise_cons.mpr ⟨?_, ih h.2⟩
      intro b hb
      have hb' := (insertE_perm e xs).mem_iff.mp hb
      rcases List.mem_cons.mp hb' with rfl | hbxs
      · exact hxe
      · exact h.1 b hbxs

theorem sortLedger_sorted : ∀ l : List LedgerEntry,
    (sortLedger l).Pairwise fun a b => Date.leb a.date b.date = true
  | [] => List.Pairwise.nil
  | x :: xs => insertE_sorted x (sortLedger_sorted xs)

theorem upsert_invariant {l : List LedgerEntry} (d : Date) (c : Nat)
    (h : sortedDistinct l) : sortedDistinct (upsert l d c) := by
  unfold upsert
  split
  · exact h
  · rename_i hany
    have hne : ∀ e ∈ l, e.date ≠ d := by
      intro e he hce
      exact hany (List.any_eq_true.mpr ⟨e, he, by simp [hce]⟩)
    have hdist : (l ++ [⟨d, c⟩] : List LedgerEntry).Pairwise
        fun a b => a.date ≠ b.date := by
      rw [List.pairwise_append]
      refine ⟨?_, by simp, ?_⟩
      · refine h.imp ?_
        intro a b hab hce
        rw [hce] at hab
        rw [Date.ltb_irrefl] at hab
        cases hab
      · intro a ha b hb
        simp only [List.mem_singleton] at hb
        rw [hb]
        exact hne a ha
    have hdist' : (sortLedger (l ++ [⟨d, c⟩])).Pairwise
        fun a b => a.date ≠ b.date :=
      (sortLedger_perm (l ++ [⟨d, c⟩])).symm.pairwise hdist
        fun hxy => Ne.symm hxy
    have hsorted := sortLedger_sorted (l ++ [⟨d, c⟩])
    refine (hsorted.and hdist').imp ?_
    intro a b hab
    exact Date.ltb_of_leb_ne hab.1 hab.2

/-- Claim C7: every ledger state reachable by `upsert` operations from the
empty ledger, or from any state already satisfying the invariant (as every
previously persisted ledger does), has pairwise-distinct dates in strictly
ascending order. -/
theorem C7_ledger_invariant :
    (∀ ops : List (Date × Nat), sortedDistinct (applyOps ops [])) ∧
    (∀ (ops : List (Date × Nat)) (l : List LedgerEntry),
        sortedDistinct l → sortedDistinct (applyOps ops l)) := by
  have key : ∀ (ops : List (Date × Nat)) (l : List LedgerEntry),
      sortedDistinct l → sortedDistinct (applyOps ops l) := by
    intro ops
    induction ops with
    | nil => exact fun l h => h
    | cons p ps ih =>
      intro l h
      exact ih _ (upsert_invariant p.1 p.2 h)
  exact ⟨fun ops => key ops [] List.Pairwise.nil, key⟩

/-- Witness for C7: two upserts (one out of order) on a one-row ledger. -/
theorem C7_ledger_invariant_witness :
    sortedDistinct
      (applyOps [(exDate, 52653), (⟨2025, 4, 30⟩, 51000)]
        [⟨⟨2025, 3, 1⟩, 50000⟩]) := by
  refine C7_ledger_invariant.2 _ _ ?_
  unfold sortedDistinct
  decide

/-! ## Claim C8: idempotent upsert and re-runs -/

theorem upsert_of_present {l : List LedgerEntry} {d : Date} (c : Nat)
    (h : l.any (fun e => decide (e.date = d)) = true) : upsert l d c = l := by
  simp only [upsert, h, if_true]

theorem date_mem_upsert (l : List LedgerEntry) (d : Date) (c : Nat) :
    (upsert l d c).any (fun e => decide (e.date = d)) = true := by
  unfold upsert
  split
  · assumption
  · refine List.any_eq_true.mpr ⟨⟨d, c⟩, ?_, by simp⟩
    exact (sortLedger_perm _).mem_iff.mpr (by simp)

/-- Claim C8: `upsert` on a ledger already holding the date is a no-op (not
an error, not an overwrite), and re-running the pipeline against an
unchanged environment reproduces the same ledger with a non-error outcome. -/
theorem C8_upsert_idempotent :
    (∀ (l : List LedgerEntry) (d : Date) (c : Nat),
        l.any (fun e => decide (e.date = d)) = true → upsert l d c = l) ∧
    (∀ (env : PipelineEnv) (stored l : List LedgerEntry),
        runScript env stored = .ok l → runScript env l = .ok l) := by
  refine ⟨fun l d c h => upsert_of_present c h, ?_⟩
  intro env stored l h
  cases hf : find_latest_pdf_url env.scrape with
  | error e => simp [runScript, hf] at h
  | ok p =>
    obtain ⟨url, d⟩ := p
    cases ht : env.pdfText url with
    | error e => simp [runScript, hf, ht] at h
    | ok t =>
      cases he : extract_deaths t (env.ocr url) with
      | error e => simp [runScript, hf, ht, he] at h
      | ok c =>
        simp only [runScript, hf, ht, he, Except.ok.injEq] at h
        subst h
        simp only [runScript, hf, ht, he, Except.ok.injEq]
        exact upsert_of_present c (date_mem_upsert stored d c)

/-- Witness for C8: a second run of the fully successful environment on the
ledger the first run produced leaves it unchanged and succeeds. -/
theorem C8_upsert_idempotent_witness :
    runScript envSuccess [⟨exDate, 52653⟩] = .ok [⟨exDate, 52653⟩] :=
  C8_upsert_idempotent.2 envSuccess [] [⟨exDate, 52653⟩] rfl

/-! ## Claim C9: stage failures abort the run and leave the ledger alone -/

/-- Claim C9: if the locate stage, the download stage, or the extraction
stage fails, the process exits with code 1 carrying the failure description,
and the stored ledger is exactly what it was before the run. -/
theorem C9_stage_failure_aborts :
    (∀ (env : PipelineEnv) (stored : List LedgerEntry) (e : String),
        find_latest_pdf_url env.scrape = .error e →
        scriptExit env stored = (1, stored)) ∧
    (∀ (env : PipelineEnv) (stored : List LedgerEntry) (url : String)
        (d : Date) (e : String),
        find_latest_pdf_url env.scrape = .ok (url, d) →
        env.pdfText url = .error e →
        scriptExit env stored = (1, stored)) ∧
    (∀ (env : PipelineEnv) (stored : List LedgerEntry) (url : String)
        (d : Date) (t : List Char) (e : String),
        find_latest_pdf_url env.scrape = .ok (url, d) →
        env.pdfText url = .ok t →
        extract_deaths t (env.ocr url) = .error e →
        scriptExit env stored = (1, stored)) := by
  refine ⟨?_, ?_, ?_⟩
  · intro env stored e hf
    simp [scriptExit, runScript, hf]
  · intro env stored url d e hf ht
    simp [scriptExit, runScript, hf, ht]
  · intro env stored url d t e hf ht he
    simp [scriptExit, runScript, hf, ht, he]

/-- Witness for C9: an environment whose PDF text has no extractable number
exits with 1 and leaves the one-row ledger untouched. -/
theorem C9_stage_failure_aborts_witness :
    scriptExit envFailExtract [⟨exDate, 1⟩] = (1, [⟨exDate, 1⟩]) :=
  C9_stage_failure_aborts.2.2 envFailExtract [⟨exDate, 1⟩] cand2Url exDate
    ((r"no numbers here").toList) extractErrMsg rfl rfl rfl

/-! ## Claim C1: fallback ordering of the locator -/

/-- Claim C1 counterexample: when the listing scan yields zero candidates
the script raises the not-found error immediately, even though a ReliefWeb
fallback result is available — the fallback is never consulted. -/
theorem C1_counterexample :
    find_latest_pdf_url envEmptyListing = .error listErrMsg ∧
    envEmptyListing.reliefweb = some (rwUrl, ⟨2025, 4, 30⟩) :=
  ⟨rfl, rfl⟩

/-- Claim C1 amended: with zero candidates the locator fails immediately
without trying the ReliefWeb fallback; the fallback is consulted only when
candidates exist but none of the three guessed URLs passes the HEAD probe,
and only if the fallback too yields nothing does the call fail at that
point. -/
theorem C1_amended_fallback_order :
    (∀ env : ScrapeEnv, collectSnapshots env.anchors = .ok [] →
        find_latest_pdf_url env = .error listErrMsg) ∧
    (∀ (env : ScrapeEnv) (d : Date) (ds : List Date) (u : String) (dt : Date),
        collectSnapshots env.anchors = .ok (d :: ds) →
        (candidateUrls (maxDate d ds)).find? env.headOk = none →
        env.reliefweb = some (u, dt) →
        find_latest_pdf_url env = .ok (u, dt)) ∧
    (∀ (env : ScrapeEnv) (d : Date) (ds : List Date),
        collectSnapshots env.anchors = .ok (d :: ds) →
        (candidateUrls (maxDate d ds)).find? env.headOk = none →
        env.reliefweb = none →
        find_latest_pdf_url env = .error rwErrMsg) := by
  refine ⟨?_, ?_, ?_⟩
  · intro env h
    simp [find_latest_pdf_url, h]
  · intro env d ds u dt hc hh hr
    simp [find_latest_pdf_url, hc, hh, hr]
  · intro env d ds hc hh hr
    simp [find_latest_pdf_url, hc, hh, hr]

/-- Witness for C1 (amended): candidates exist, every HEAD probe fails, and
the ReliefWeb fallback result is returned. -/
theorem C1_amended_fallback_order_witness :
    find_latest_pdf_url envHeadFail = .ok (rwUrl, ⟨2025, 4, 30⟩) :=
  C1_amended_fallback_order.2.1 envHeadFail exDate [] rwUrl ⟨2025, 4, 30⟩
    rfl rfl rfl

/-! ## Claim C3: how the PDF URL is actually resolved -/

/-- Claim C3 counterexample: resolution never consults a landing page.  In a
state where the landing page holds a PDF anchor — which the spec's resolver
returns — the script instead returns the date-constructed URL that passed
the HEAD probe, a different URL. -/
theorem C3_counterexample :
    resolve_spec landingAnchors landingBase
      = some (landingBase ++ (r"/2025/05/gaza_snapshot.pdf")) ∧
    find_latest_pdf_url envProbe = .ok (cand2Url, exDate) ∧
    cand2Url ≠ landingBase ++ (r"/2025/05/gaza_snapshot.pdf") := by
  refine ⟨by decide, rfl, by decide⟩

/-- Claim C3 amended: there is no landing-page anchor scan; the script
constructs the three known filename patterns from the snapshot date and
probes them with HEAD in order (`%20final`, `-final`, plain), returning the
first success together with the maximal listing date. -/
theorem C3_amended_probe_resolution :
    ∀ (env : ScrapeEnv) (d : Date) (ds : List Date),
      collectSnapshots env.anchors = .ok (d :: ds) →
      (env.headOk ((candidateUrls (maxDate d ds)).getD 0 (r"")) = false →
        env.headOk ((candidateUrls (maxDate d ds)).getD 1 (r"")) = true →
        find_latest_pdf_url env
          = .ok ((candidateUrls (maxDate d ds)).getD 1 (r""), maxDate d ds)) ∧
      (env.headOk ((candidateUrls (maxDate d ds)).getD 0 (r"")) = true →
        find_latest_pdf_url env
          = .ok ((candidateUrls (maxDate d ds)).getD 0 (r""), maxDate d ds)) := by
  intro env d ds hc
  constructor
  · intro h0 h1
    simp [find_latest_pdf_url, hc, candidateUrls, List.find?] at h0 h1 ⊢
    simp [h0, h1]
  · intro h0
    simp [find_latest_pdf_url, hc, candidateUrls, List.find?] at h0 ⊢
    simp [h0]

/-- Witness for C3 (amended): the first probe fails, the second succeeds,
and its URL is returned with the listing date. -/
theorem C3_amended_probe_resolution_witness :
    find_latest_pdf_url envProbe = .ok (cand2Url, exDate) :=
  (C3_amended_probe_resolution envProbe exDate [] rfl).1 (by decide) (by decide)

/-! ## Claim C4: maximal-date selection and day-first parsing -/

/-- Claim C4: for a non-empty candidate list the selected date is a member
and an upper bound (maximal), selection is a pure function of the listing
content (deterministic), the probe is issued for that maximal date, and the
example anchor text parses day-first to 2025-05-07. -/
theorem C4_max_selection :
    (∀ (d : Date) (ds : List Date),
        maxDate d ds ∈ d :: ds ∧
          ∀ x ∈ d :: ds, Date.leb x (maxDate d ds) = true) ∧
    (∀ (env : ScrapeEnv) (d : Date) (ds : List Date) (url : String),
        collectSnapshots env.anchors = .ok (d :: ds) →
        (candidateUrls (maxDate d ds)).find? env.headOk = some url →
        find_latest_pdf_url env = .ok (url, maxDate d ds)) ∧
    collectSnapshots [exTitle] = .ok [exDate] := by
  refine ⟨?_, ?_, rfl⟩
  · intro d ds
    obtain ⟨h1, h2⟩ := maxDate_le ds d
    refine ⟨?_, ?_⟩
    · rcases maxDate_mem ds d with h | h
      · rw [h]; exact List.mem_cons_self _ _
      · exact List.mem_cons_of_mem _ h
    · intro x hx
      rcases List.mem_cons.mp hx with rfl | hx
      · exact h1
      · exact h2 x hx
  · intro env d ds url hc hh
    simp [find_latest_pdf_url, hc, hh]

/-- Witness for C4: the maximal date over a two-candidate listing bounds the
other candidate from above. -/
theorem C4_max_selection_witness :
    Date.leb ⟨2025, 4, 30⟩ (maxDate ⟨2025, 4, 30⟩ [exDate]) = true :=
  (C4_max_selection.1 ⟨2025, 4, 30⟩ [exDate]).2 ⟨2025, 4, 30⟩
    (List.mem_cons_self _ _)

/-! ## Claim C2: inversion lemmas for the title matcher -/

theorem tryDay_some_inv {k : Nat} {s0 g : List Char}
    (h : tryDay k s0 = some g) :
    (s0.take k).length = k ∧ (s0.take k).all Char.isDigit = true ∧
      matchFromSpace1 (s0.take k) (s0.drop k) = some g := by
  simp only [tryDay] at h
  split at h
  · rename_i hguard
    simp only [Bool.and_eq_true, decide_eq_true_eq] at hguard
    exact ⟨hguard.1, hguard.2, h⟩
  · cases h

theorem matchFromSpace1_inv {day s g : List Char}
    (h : matchFromSpace1 day s = some g) :
    ∃ s1, s = ' ' :: s1 ∧ matchMonth day s1 = some g := by
  cases s with
  | nil => cases h
  | cons c s1 =>
    simp only [matchFromSpace1] at h
    split at h
    · rename_i hc
      rw [beq_iff_eq] at hc
      exact ⟨s1, by rw [hc], h⟩
    · cases h

theorem matchMonth_inv {day s1 g : List Char}
    (h : matchMonth day s1 = some g) :
    ∃ j, 1 ≤ j ∧ j ≤ classRun isWordChar s1 ∧
      matchFromSpace2 day (s1.take j) (s1.drop j) = some g := by
  unfold matchMonth at h
  obtain ⟨j, h1, h2, hc⟩ := tryDesc_some h
  exact ⟨j, h1, h2, hc⟩

theorem matchFromSpace2_inv {day month s g : List Char}
    (h : matchFromSpace2 day month s = some g) :
    ∃ s2, s = ' ' :: s2 ∧ matchYear day month s2 = some g := by
  cases s with
  | nil => cases h
  | cons c s2 =>
    simp only [matchFromSpace2] at h
    split at h
    · rename_i hc
      rw [beq_iff_eq] at hc
      exact ⟨s2, by rw [hc], h⟩
    · cases h

theorem matchYear_inv {day month s2 g : List Char}
    (h : matchYear day month s2 = some g) :
    (s2.take 4).length = 4 ∧ (s2.take 4).all Char.isDigit = true ∧
      matchClose day month (s2.take 4) (s2.drop 4) = some g := by
  simp only [matchYear] at h
  split at h
  · rename_i hguard
    simp only [Bool.and_eq_true, decide_eq_true_eq] at hguard
    exact ⟨hguard.1, hguard.2, h⟩
  · cases h

theorem matchClose_inv {day month year s g : List Char}
    (h : matchClose day month year s = some g) :
    ∃ rest, s = ')' :: rest ∧ g = day ++ ' ' :: (month ++ ' ' :: year) := by
  cases s with
  | nil => cases h
  | cons c rest =>
    simp only [matchClose] at h
    split at h
    · rename_i hc
      rw [beq_iff_eq] at hc
      cases h
      exact ⟨rest, by rw [hc], rfl⟩
    · cases h

theorem titleMatch?_eq {t s0 : List Char}
    (hml : matchLitCI titleLit t = some s0) :
    titleMatch? t =
      match tryDay 2 s0 with
      | some g => some g
      | none => tryDay 1 s0 := by
  unfold titleMatch?
  rw [hml]

theorem titleMatch?_isSome_imp {t : List Char}
    (h : (titleMatch? t).isSome = true) : titlePatternHolds t := by
  cases hml : matchLitCI titleLit t with
  | none => unfold titleMatch? at h; rw [hml] at h; simp at h
  | some s0 =>
    rw [titleMatch?_eq hml] at h
    obtain ⟨pre, hpre, hci⟩ := matchLitCI_some hml
    have hday : ∃ k, (k = 2 ∨ k = 1) ∧ ∃ g, tryDay k s0 = some g := by
      cases h2 : tryDay 2 s0 with
      | some g => exact ⟨2, Or.inl rfl, g, h2⟩
      | none =>
        rw [h2] at h
        obtain ⟨g, hg⟩ := Option.isSome_iff_exists.mp h
        exact ⟨1, Or.inr rfl, g, hg⟩
    obtain ⟨k, hk, g, hg⟩ := hday
    obtain ⟨hdl, hdd, hm1⟩ := tryDay_some_inv hg
    obtain ⟨s1, hs1, hmm⟩ := matchFromSpace1_inv hm1
    obtain ⟨j, hj1, hjw, hm2⟩ := matchMonth_inv hmm
    obtain ⟨s2, hs2, hmy⟩ := matchFromSpace2_inv hm2
    obtain ⟨hyl, hyd, hmc⟩ := matchYear_inv hmy
    obtain ⟨rest, hrest, _⟩ := matchClose_inv hmc
    have e0 : s0.take k ++ (' ' :: s1) = s0 := by
      rw [← hs1]
      exact List.take_append_drop k s0
    have e1 : s1.take j ++ (' ' :: s2) = s1 := by
      rw [← hs2]
      exact List.take_append_drop j s1
    have e2 : s2.take 4 ++ (')' :: rest) = s2 := by
      rw [← hrest]
      exact List.take_append_drop 4 s2
    have hjlen : (s1.take j).length = j := by
      have := classRun_le_length isWordChar s1
      rw [List.length_take]
      omega
    refine ⟨pre, s0.take k, s1.take j, s2.take 4, rest, ?_, hci, ?_, ?_, hdd,
      ?_, all_take_of_le_classRun s1 j hjw, hyl, hyd⟩
    · rw [hpre, e2, e1, e0]
    · omega
    · omega
    · omega

theorem titlePat_imp_isSome {t : List Char} (h : titlePatternHolds t) :
    (titleMatch? t).isSome = true := by
  obtain ⟨pre, day, month, year, rest, rfl, hci, hd1, hd2, hdd, hm1, hmw, hy4,
    hyd⟩ := h
  rw [titleMatch?_eq (matchLitCI_append hci _)]
  have hkey : (tryDay day.length
      (day ++ ' ' :: (month ++ ' ' :: (year ++ ')' :: rest)))).isSome = true := by
    simp only [tryDay]
    rw [List.take_left, List.drop_left]
    simp only [hdd, Bool.and_eq_true, decide_eq_true_eq, and_true, if_pos rfl]
    have hstep1 : matchFromSpace1 day
        (' ' :: (month ++ ' ' :: (year ++ ')' :: rest)))
        = matchMonth day (month ++ ' ' :: (year ++ ')' :: rest)) := by
      simp [matchFromSpace1]
    rw [hstep1]
    unfold matchMonth
    have hw : classRun isWordChar (month ++ ' ' :: (year ++ ')' :: rest))
        = month.length := by
      rw [classRun_append _ _ _ fun c hc => List.all_eq_true.mp hmw c hc]
      rw [classRun_eq_zero _ (by decide)]
      omega
    rw [hw]
    refine tryDesc_isSome hm1 (Nat.le_refl _) ?_
    rw [List.take_left, List.drop_left]
    have hstep2 : matchFromSpace2 day month
        (' ' :: (year ++ ')' :: rest))
        = matchYear day month (year ++ ')' :: rest) := by
      simp [matchFromSpace2]
    rw [hstep2]
    simp only [matchYear]
    rw [List.take_left' hy4, List.drop_left' hy4]
    simp [hy4, hyd, matchClose]
  have hone : day.length = 1 ∨ day.length = 2 := by omega
  rcases hone with hd | hd
  · cases h2 : tryDay 2 (day ++ ' ' :: (month ++ ' ' :: (year ++ ')' :: rest))) with
    | some g => simp [h2]
    | none =>
      simp only [h2]
      rw [← hd]
      exact hkey
  · cases h2 : tryDay 2 (day ++ ' ' :: (month ++ ' ' :: (year ++ ')' :: rest))) with
    | some g => simp [h2]
    | none =>
      rw [hd, h2] at hkey
      simp at hkey

/-- Claim C2 counterexample: an anchor whose literal prefix differs in
letter case from the pattern is still recognized as a candidate (the regex
is compiled with `re.IGNORECASE`), yielding the same date. -/
theorem C2_counterexample :
    (titleMatch? upperTitle).isSome = true ∧
    upperTitle.take titleLit.length ≠ titleLit ∧
    collectSnapshots [upperTitle] = .ok [exDate] := by
  refine ⟨by decide, by decide, rfl⟩

/-- Claim C2 amended: an anchor text is recognized as a candidate exactly
when it starts with a case-insensitive match of the literal prefix
`"Reported impact snapshot | Gaza Strip ("` followed by a 1–2 digit day, a
space, a word, a space, a 4-digit year and `)`; letter case never excludes
an anchor. -/
theorem C2_amended_title_recognition (t : List Char) :
    (titleMatch? t).isSome = true ↔ titlePatternHolds t :=
  ⟨titleMatch?_isSome_imp, titlePat_imp_isSome⟩

/-- Witness for C2 (amended): the all-caps anchor satisfies the
case-insensitive pattern shape. -/
theorem C2_amended_title_recognition_witness : titlePatternHolds upperTitle :=
  (C2_amended_title_recognition upperTitle).mp (by decide)
